import Mathlib

/-!
# Verification of the Github repository reader crawl pipeline

Shallow embedding of `gpt_index/readers/github_readers/github_repository_reader.py`.

Modelling conventions:
* The Github API client is an external collaborator.  Its tree graph is
  acyclic (content-addressed trees rooted at a single commit), so the tree
  reachable from a tree sha is embedded as the inductive type `GitTreeEntry`:
  a `tree` entry carries the entry list that `client.get_tree` returns for its
  sha; `get_commit`/`get_branch` composed with that resolution become the
  fields `get_commit_tree`/`get_branch_tree` of `ReaderCtx`.
* Python byte strings are `List Nat`; the stdlib codecs `base64.b64decode`
  (raising `binascii.Error`) and `bytes.decode("utf-8")` (raising
  `UnicodeDecodeError`) are external collaborators modelled as the
  `Option`-valued fields `b64decode` / `decode_utf8` of `ReaderCtx`.
* The extractor registry `DEFAULT_FILE_EXTRACTOR` lives in
  `gpt_index/readers/file/base.py` (outside the modelled core); it is the
  field `file_extractor`.  An extractor that raises during `parse_file`
  returns `none`.  Writing the bytes to a scoped temporary file and handing
  the extractor that path is the identity on the content, so `parse_file`
  consumes the bytes directly.
* Exceptions that abort the whole call (the `assert` on the blob encoding,
  the `ValueError`s of `load_data` and of the constructor) are `Except`
  errors; exceptions caught per file (`continue`) are `Option`/skips.
-/

/-- Python byte strings (`bytes`) as lists of byte values. -/
abbrev Bytes := List Nat

/-- `GitTreeResponseModel.GitTreeObject` with the client's tree graph
embedded: a `tree` entry carries the entries that `get_tree` returns for its
sha.  `misc` models entries whose `type` field is neither `"tree"` nor
`"blob"` (e.g. submodule `commit` entries); the loop in `_recurse_tree`
ignores them. -/
inductive GitTreeEntry where
  | blob (path : String) (sha : String)
  | tree (path : String) (sha : String) (children : List GitTreeEntry)
  | misc (path : String) (type_name : String) (sha : String)

/-- The `path` attribute of a tree object. -/
def GitTreeEntry.path : GitTreeEntry → String
  | .blob p _ => p
  | .tree p _ _ => p
  | .misc p _ _ => p

/-- The `sha` attribute of a tree object. -/
def GitTreeEntry.sha : GitTreeEntry → String
  | .blob _ s => s
  | .tree _ s _ => s
  | .misc _ _ s => s

/-- `os.path.join(a, b)` (posix semantics), written on the character lists:
if `b` is absolute it wins; otherwise it is appended to `a`, inserting `"/"`
unless `a` is empty or already ends in `"/"`. -/
def path_join (a b : String) : String :=
  if b.data.head? = some '/' then b
  else if a.data = [] ∨ a.data.getLast? = some '/' then String.mk (a.data ++ b.data)
  else String.mk (a.data ++ '/' :: b.data)

/-- `GithubRepositoryReader._recurse_tree`, with the client's tree graph
embedded in the entry list (see `GitTreeEntry`): walk the entries of one
tree, recursing into subtrees and emitting `(blob object, full path)` pairs
in loop order.  The `current_depth` parameter of the source only feeds
verbose printing and is dropped. -/
def recurse_tree (current_path : String) : List GitTreeEntry → List (GitTreeEntry × String)
  | [] => []
  | .blob p sha :: rest =>
      (.blob p sha, path_join current_path p) :: recurse_tree current_path rest
  | .tree p sha children :: rest =>
      recurse_tree (path_join current_path p) children ++ recurse_tree current_path rest
  | .misc _ _ _ :: rest => recurse_tree current_path rest

/-- Number of blob entries in a list of trees, at any depth. -/
def count_blobs : List GitTreeEntry → Nat
  | [] => 0
  | .blob _ _ :: rest => 1 + count_blobs rest
  | .tree _ _ children :: rest => count_blobs children + count_blobs rest
  | .misc _ _ _ :: rest => count_blobs rest

/-- Well-formedness of a tree as Git guarantees it: within each tree the
entry names are pairwise distinct, nonempty and free of `'/'` (Git entry
names are single path segments), recursively. -/
def well_formed : List GitTreeEntry → Bool
  | [] => true
  | .blob p _ :: rest =>
      decide (p ≠ "" ∧ '/' ∉ p.data) &&
      decide (p ∉ rest.map GitTreeEntry.path) && well_formed rest
  | .tree p _ children :: rest =>
      decide (p ≠ "" ∧ '/' ∉ p.data) &&
      decide (p ∉ rest.map GitTreeEntry.path) &&
      well_formed children && well_formed rest
  | .misc p _ _ :: rest =>
      decide (p ≠ "" ∧ '/' ∉ p.data) &&
      decide (p ∉ rest.map GitTreeEntry.path) && well_formed rest

/-- The characters a directory base contributes in front of an entry name:
nothing for the empty base, the base followed by `'/'` otherwise. -/
def dir_pre (l : List Char) : List Char := if l = [] then [] else l ++ ['/']

/-- What may follow an entry name inside a full path: nothing, or a `'/'`
and further characters. -/
def dir_tail (t : List Char) : Prop := t = [] ∨ ∃ u, t = '/' :: u

/-- The blob response of `client.get_blob`: content hash, declared content
encoding, and the encoded content string. -/
structure BlobData where
  sha : String
  encoding : String
  content : String

/-- `gpt_index.readers.schema.base.Document`: text plus metadata.  `doc_id`
is `none` when the constructor is called without one; `extra_info` keeps the
key order of the Python dict literal. -/
structure Document where
  text : String
  doc_id : Option String
  extra_info : List (String × String)
deriving DecidableEq

/-- A registered extractor (a value of `DEFAULT_FILE_EXTRACTOR`).
`parse_file` consumes the file content (the temporary file written for it
holds exactly the decoded bytes) and returns the text segments, or `none`
when the extractor raises. -/
structure FileExtractor where
  parse_file : Bytes → Option (List String)

/-- Errors that abort a whole `load_data` call: the two `ValueError`s of the
argument check and the `AssertionError` of the blob-encoding assert. -/
inductive CrawlError where
  | invalidArgument (msg : String)
  | unsupportedEncoding (enc : String)
deriving DecidableEq

/-- The reader together with its external collaborators: the extractor
registry, the stdlib codecs, and the API client.  The client's
`get_commit`/`get_branch` composed with tree resolution are
`get_commit_tree`/`get_branch_tree` (see the module comment). -/
structure ReaderCtx where
  useParser : Bool
  file_extractor : String → Option FileExtractor
  b64decode : String → Option Bytes
  decode_utf8 : Bytes → Option String
  get_blob : String → BlobData
  get_commit_tree : String → List GitTreeEntry
  get_branch_tree : String → List GitTreeEntry

/-- `os.path.basename` (posix): the part after the last `'/'`. -/
def basename (p : String) : String :=
  String.mk ((p.data.reverse.takeWhile (fun c => c ≠ '/')).reverse)

/-- The suffix of a character list starting at its last `'.'`, if any. -/
def ext_after_last_dot : List Char → Option (List Char)
  | [] => none
  | c :: cs =>
    match ext_after_last_dot cs with
    | some e => some e
    | none => if c = '.' then some ('.' :: cs) else none

/-- `os.path.splitext(p)[1]` (posix): the extension of the basename from its
last dot, where the leading dots of the basename never start an extension. -/
def splitext_ext (p : String) : String :=
  let b := (p.data.reverse.takeWhile (fun c => c ≠ '/')).reverse
  match ext_after_last_dot (b.dropWhile (fun c => c = '.')) with
  | some e => String.mk e
  | none => ""

/-- Modelled from the spec: `get_file_extension` lives in
`gpt_index/readers/github_readers/utils.py`, which is not part of the
modelled sources.  Per the spec the registry is keyed by "extension (string,
no dot)" with exact, case-sensitive matching, so the function yields the
part of the filename after its last dot, without the dot. -/
def get_file_extension (filename : String) : String :=
  match ext_after_last_dot filename.data with
  | some (_ :: e) => String.mk e
  | _ => filename

/-- `GithubRepositoryReader._parse_supported_file`: look the extension up in
the registry; if an extractor is registered, run it on the content (written
to a scoped temporary file in the source) and join its segments with a blank
line; `none` when no extractor is registered or the extractor raises. -/
def parse_supported_file (ctx : ReaderCtx) (file_path : String) (file_content : Bytes)
    (tree_sha : String) (tree_path : String) : Option Document :=
  match ctx.file_extractor (get_file_extension file_path) with
  | none => none
  | some extractor =>
    match extractor.parse_file file_content with
    | none => none
    | some segments =>
      some { text := String.intercalate "\n\n" segments
           , doc_id := some tree_sha
           , extra_info := [("file_path", file_path), ("file_name", tree_path)] }

/-- The fallback Document built from UTF-8 decoded text. -/
def fallback_document (full_path : String) (text : String) : Document :=
  { text := text
  , doc_id := none
  , extra_info := [("full_path", full_path), ("file_name", basename full_path),
                   ("file_extension", splitext_ext full_path)] }

/-- `GithubRepositoryReader._generate_documents`: for each walked blob,
fetch it, assert the base64 encoding (an assertion failure aborts the whole
call), decode it (skip the file on `binascii.Error`), try the extractor path
when `use_parser` is set, and otherwise fall through to UTF-8 text decoding
(skip the file on `UnicodeDecodeError`). -/
def generate_documents (ctx : ReaderCtx) :
    List (GitTreeEntry × String) → Except CrawlError (List Document)
  | [] => .ok []
  | (blob_object, full_path) :: rest =>
    if (ctx.get_blob blob_object.sha).encoding ≠ "base64" then
      .error (.unsupportedEncoding (ctx.get_blob blob_object.sha).encoding)
    else
      match ctx.b64decode (ctx.get_blob blob_object.sha).content with
      | none => generate_documents ctx rest
      | some decoded_bytes =>
        match (if ctx.useParser then
                 parse_supported_file ctx full_path decoded_bytes
                   (ctx.get_blob blob_object.sha).sha full_path
               else none) with
        | some document =>
          match generate_documents ctx rest with
          | .error e => .error e
          | .ok ds => .ok (document :: ds)
        | none =>
          match ctx.decode_utf8 decoded_bytes with
          | none => generate_documents ctx rest
          | some decoded_content_as_str =>
            match generate_documents ctx rest with
            | .error e => .error e
            | .ok ds => .ok (fallback_document full_path decoded_content_as_str :: ds)

/-- The per-blob outcome of the loop body of `_generate_documents`, assuming
the encoding assertion passes: the Document the blob contributes, if any. -/
def document_for (ctx : ReaderCtx) (pr : GitTreeEntry × String) : Option Document :=
  match ctx.b64decode (ctx.get_blob pr.1.sha).content with
  | none => none
  | some decoded_bytes =>
    match (if ctx.useParser then
             parse_supported_file ctx pr.2 decoded_bytes (ctx.get_blob pr.1.sha).sha pr.2
           else none) with
    | some document => some document
    | none =>
      match ctx.decode_utf8 decoded_bytes with
      | none => none
      | some decoded_content_as_str =>
        some (fallback_document pr.2 decoded_content_as_str)

/-- `GithubRepositoryReader._load_data_from_commit`. -/
def load_data_from_commit (ctx : ReaderCtx) (commit_sha : String) :
    Except CrawlError (List Document) :=
  generate_documents ctx (recurse_tree "" (ctx.get_commit_tree commit_sha))

/-- `GithubRepositoryReader._load_data_from_branch`. -/
def load_data_from_branch (ctx : ReaderCtx) (branch : String) :
    Except CrawlError (List Document) :=
  generate_documents ctx (recurse_tree "" (ctx.get_branch_tree branch))

/-- `GithubRepositoryReader.load_data`: the argument check, then dispatch
to the commit or branch loader. -/
def load_data (ctx : ReaderCtx) (commit_sha branch : Option String) :
    Except CrawlError (List Document) :=
  if commit_sha.isSome ∧ branch.isSome then
    .error (.invalidArgument "You can only specify one of commit or branch.")
  else if commit_sha.isNone ∧ branch.isNone then
    .error (.invalidArgument "You must specify one of commit or branch.")
  else
    match commit_sha with
    | some c => load_data_from_commit ctx c
    | none =>
      match branch with
      | some b => load_data_from_branch ctx b
      | none => .error (.invalidArgument "You must specify one of commit or branch.")

/-- The credential resolution of `GithubRepositoryReader.__init__`: the
`github_token` argument, else the `GITHUB_TOKEN` environment variable, else
a `ValueError` raised before the client is even constructed. -/
def resolve_github_token (github_token : Option String) (env_github_token : Option String) :
    Except CrawlError String :=
  match github_token with
  | some t => .ok t
  | none =>
    match env_github_token with
    | some t => .ok t
    | none =>
      .error (.invalidArgument
        ("Please provide a Github token. You can do so by passing it as an argument or" ++
         "by setting the GITHUB_TOKEN environment variable."))

/-- What one entry of a tree contributes to the walk, in place: a blob
contributes its own pair, a subtree contributes its whole recursive walk,
any other entry contributes nothing. -/
def expand_entry (base : String) : GitTreeEntry → List (GitTreeEntry × String)
  | .blob p sha => [(.blob p sha, path_join base p)]
  | .tree p _ children => recurse_tree (path_join base p) children
  | .misc _ _ _ => []

/-- An extractor that always raises (`parse_file` returns `none`). -/
def failing_extractor : FileExtractor := ⟨fun _ => none⟩

/-- Concrete reader for the extractor-failure scenario: the `"txt"`
extension is registered with `failing_extractor`, and the single blob
decodes to bytes that UTF-8-decode to `"hi"`. -/
def c1_ctx : ReaderCtx :=
  { useParser := true
  , file_extractor := fun ext => if ext = "txt" then some failing_extractor else none
  , b64decode := fun _ => some [104, 105]
  , decode_utf8 := fun _ => some "hi"
  , get_blob := fun sha => { sha := sha, encoding := "base64", content := "aGk=" }
  , get_commit_tree := fun _ => []
  , get_branch_tree := fun _ => [] }

/-- An extractor returning two fixed segments. -/
def two_segment_extractor : FileExtractor := ⟨fun _ => some ["seg one", "seg two"]⟩

/-- Concrete reader for the extractor-success scenario. -/
def c3_ctx : ReaderCtx :=
  { useParser := true
  , file_extractor := fun ext => if ext = "md" then some two_segment_extractor else none
  , b64decode := fun _ => some [35]
  , decode_utf8 := fun _ => some "#"
  , get_blob := fun sha => { sha := sha, encoding := "base64", content := "Iw==" }
  , get_commit_tree := fun _ => []
  , get_branch_tree := fun _ => [] }

/-- Concrete reader for the plain-text fallback scenario: no extractor is
registered at all and the single blob decodes to `"hello"`. -/
def c4_ctx : ReaderCtx :=
  { useParser := true
  , file_extractor := fun _ => none
  , b64decode := fun _ => some [104, 101, 108, 108, 111]
  , decode_utf8 := fun _ => some "hello"
  , get_blob := fun sha => { sha := sha, encoding := "base64", content := "aGVsbG8=" }
  , get_commit_tree := fun _ => []
  , get_branch_tree := fun _ => [] }

/-- Concrete reader for the decode-failure scenario: base64 decoding fails
for content `"!"`, UTF-8 decoding fails for byte `255`. -/
def c5_ctx : ReaderCtx :=
  { useParser := false
  , file_extractor := fun _ => none
  , b64decode := fun content => if content = "!" then none else some [255]
  , decode_utf8 := fun _ => none
  , get_blob := fun sha =>
      if sha = "bad64" then { sha := sha, encoding := "base64", content := "!" }
      else { sha := sha, encoding := "base64", content := "/w==" }
  , get_commit_tree := fun _ => []
  , get_branch_tree := fun _ => [] }

/-- Concrete reader for the encoding-assertion scenario: blob `"weird"`
reports encoding `"utf-8"`, every other blob is normal base64. -/
def c8_ctx : ReaderCtx :=
  { useParser := false
  , file_extractor := fun _ => none
  , b64decode := fun _ => some [104, 105]
  , decode_utf8 := fun _ => some "hi"
  , get_blob := fun sha =>
      if sha = "weird" then { sha := sha, encoding := "utf-8", content := "hi" }
      else { sha := sha, encoding := "base64", content := "aGk=" }
  , get_commit_tree := fun _ => []
  , get_branch_tree := fun _ => [] }

theorem recurse_tree_length (base : String) (es : List GitTreeEntry) :
    (recurse_tree base es).length = count_blobs es := by
  induction base, es using recurse_tree.induct with
  | case1 base => simp [recurse_tree, count_blobs]
  | case2 base p sha rest ih => simp [recurse_tree, count_blobs, ih, Nat.add_comm]
  | case3 base p sha children rest ih1 ih2 =>
      simp [recurse_tree, count_blobs, ih1, ih2]
  | case4 base p t s rest ih => simp [recurse_tree, count_blobs, ih]

example : recurse_tree "" [.blob "a.txt" "s1",
    .tree "b" "s2" [.blob "c.bin" "s3"], .blob "d.md" "s4"] =
    [(.blob "a.txt" "s1", "a.txt"), (.blob "c.bin" "s3", "b/c.bin"),
     (.blob "d.md" "s4", "d.md")] := by
  simp [recurse_tree, path_join]

theorem string_eq_of_data_eq {s t : String} (h : s.data = t.data) : s = t := by
  cases s with
  | mk a => cases t with
    | mk b => exact congrArg String.mk h

theorem string_data_ne_nil {s : String} (h : s ≠ "") : s.data ≠ [] := fun hd =>
  h (string_eq_of_data_eq hd)

theorem mem_of_getLast?_eq {l : List Char} {a : Char} : l.getLast? = some a → a ∈ l := by
  induction l with
  | nil => simp
  | cons c cs ih =>
    cases cs with
    | nil =>
      simp
      exact fun h => h.symm
    | cons d ds =>
      intro h
      rw [List.getLast?_cons_cons] at h
      exact List.mem_cons_of_mem _ (ih h)

theorem dir_pre_of_ne_nil {l : List Char} (h : l ≠ []) : dir_pre l = l ++ ['/'] := if_neg h

theorem path_join_data (a b : String) (hb : b.data ≠ []) (hslash : '/' ∉ b.data)
    (ha : a.data.getLast? ≠ some '/') :
    (path_join a b).data = dir_pre a.data ++ b.data := by
  have h1 : b.data.head? ≠ some '/' := by
    intro hcontra
    apply hslash
    cases hd : b.data with
    | nil => rw [hd] at hcontra; simp at hcontra
    | cons c cs =>
      rw [hd, List.head?_cons] at hcontra
      rw [Option.some.inj hcontra]
      exact List.mem_cons_self _ _
  rw [path_join, if_neg h1]
  by_cases h2 : a.data = []
  · rw [if_pos (Or.inl h2), dir_pre, if_pos h2, h2]
  · rw [if_neg (by simp [h2, ha]), dir_pre_of_ne_nil h2]
    simp

theorem path_join_getLast? (a b : String) (hb : b.data ≠ []) (hslash : '/' ∉ b.data)
    (ha : a.data.getLast? ≠ some '/') :
    (path_join a b).data.getLast? = b.data.getLast? := by
  rw [path_join_data a b hb hslash ha]
  exact List.getLast?_append_of_ne_nil _ hb

/-- Two segment-plus-tail decompositions of the same character list agree on
the segment, provided the segments are `'/'`-free and each tail is empty or
starts with `'/'`. -/
theorem seg_eq_of_append_eq :
    ∀ (n₁ n₂ t₁ t₂ : List Char), '/' ∉ n₁ → '/' ∉ n₂ → dir_tail t₁ → dir_tail t₂ →
      n₁ ++ t₁ = n₂ ++ t₂ → n₁ = n₂ := by
  intro n₁
  induction n₁ with
  | nil =>
    intro n₂ t₁ t₂ _ h2 ht1 _ heq
    cases n₂ with
    | nil => rfl
    | cons c cs =>
      exfalso
      rcases ht1 with rfl | ⟨u, rfl⟩
      · simp at heq
      · rw [List.nil_append, List.cons_append] at heq
        have hc : '/' = c := (List.cons.inj heq).1
        apply h2
        rw [← hc]
        exact List.mem_cons_self _ _
  | cons c cs ih =>
    intro n₂ t₁ t₂ h1 h2 ht1 ht2 heq
    cases n₂ with
    | nil =>
      exfalso
      rcases ht2 with rfl | ⟨u, rfl⟩
      · simp at heq
      · rw [List.nil_append, List.cons_append] at heq
        have hc : c = '/' := (List.cons.inj heq).1
        apply h1
        rw [hc]
        exact List.mem_cons_self _ _
    | cons d ds =>
      simp only [List.cons_append, List.cons.injEq] at heq
      have : cs = ds :=
        ih ds t₁ t₂ (fun hm => h1 (List.mem_cons_of_mem _ hm))
          (fun hm => h2 (List.mem_cons_of_mem _ hm)) ht1 ht2 heq.2
      rw [heq.1, this]

theorem well_formed_cons {e : GitTreeEntry} {rest : List GitTreeEntry}
    (h : well_formed (e :: rest) = true) :
    (e.path ≠ "" ∧ '/' ∉ e.path.data) ∧ e.path ∉ rest.map GitTreeEntry.path ∧
      well_formed rest = true := by
  cases e with
  | blob p s =>
    simp only [well_formed, Bool.and_eq_true, decide_eq_true_eq] at h
    exact ⟨h.1.1, h.1.2, h.2⟩
  | tree p s children =>
    simp only [well_formed, Bool.and_eq_true, decide_eq_true_eq] at h
    exact ⟨h.1.1.1, h.1.1.2, h.2⟩
  | misc p tn s =>
    simp only [well_formed, Bool.and_eq_true, decide_eq_true_eq] at h
    exact ⟨h.1.1, h.1.2, h.2⟩

theorem well_formed_tree_children {p s : String} {children rest : List GitTreeEntry}
    (h : well_formed (.tree p s children :: rest) = true) : well_formed children = true := by
  simp only [well_formed, Bool.and_eq_true, decide_eq_true_eq] at h
  exact h.1.2

theorem well_formed_mem {es : List GitTreeEntry} (h : well_formed es = true)
    {e : GitTreeEntry} (he : e ∈ es) : e.path ≠ "" ∧ '/' ∉ e.path.data := by
  induction es with
  | nil => cases he
  | cons f rest ih =>
    rcases List.mem_cons.mp he with rfl | he'
    · exact (well_formed_cons h).1
    · exact ih (well_formed_cons h).2.2 he'

/-- Every full path that `recurse_tree` emits for a well-formed entry list
decomposes as the base's directory characters, then the name of one of the
top-level entries, then an empty or `'/'`-headed tail. -/
theorem recurse_tree_shape (base : String) (es : List GitTreeEntry) :
    well_formed es = true → base.data.getLast? ≠ some '/' →
    ∀ pr ∈ recurse_tree base es, ∃ e ∈ es, ∃ t : List Char,
      dir_tail t ∧ pr.2.data = (dir_pre base.data ++ e.path.data) ++ t := by
  induction base, es using recurse_tree.induct with
  | case1 base =>
    intro _ _ pr hpr
    simp [recurse_tree] at hpr
  | case2 base p sha rest ih =>
    intro hwf hbase pr hpr
    have hc := well_formed_cons hwf
    simp only [GitTreeEntry.path] at hc
    rw [recurse_tree] at hpr
    rcases List.mem_cons.mp hpr with rfl | hpr
    · refine ⟨.blob p sha, List.mem_cons_self _ _, [], Or.inl rfl, ?_⟩
      rw [List.append_nil]
      simp only [GitTreeEntry.path]
      exact path_join_data base p (string_data_ne_nil hc.1.1) hc.1.2 hbase
    · obtain ⟨e, he, t, ht, hdata⟩ := ih hc.2.2 hbase pr hpr
      exact ⟨e, List.mem_cons_of_mem _ he, t, ht, hdata⟩
  | case3 base p sha children rest ih1 ih2 =>
    intro hwf hbase pr hpr
    have hc := well_formed_cons hwf
    simp only [GitTreeEntry.path] at hc
    have hch := well_formed_tree_children hwf
    have hpdata : p.data ≠ [] := string_data_ne_nil hc.1.1
    have hpslash : '/' ∉ p.data := hc.1.2
    rw [recurse_tree] at hpr
    rcases List.mem_append.mp hpr with hpr | hpr
    · have hbase' : (path_join base p).data.getLast? ≠ some '/' := by
        rw [path_join_getLast? base p hpdata hpslash hbase]
        intro hlast
        exact hpslash (mem_of_getLast?_eq hlast)
      obtain ⟨e', he', t', ht', hdata⟩ := ih1 hch hbase' pr hpr
      refine ⟨.tree p sha children, List.mem_cons_self _ _,
        '/' :: (e'.path.data ++ t'), Or.inr ⟨_, rfl⟩, ?_⟩
      rw [hdata, path_join_data base p hpdata hpslash hbase]
      have hne : dir_pre base.data ++ p.data ≠ [] := by simp [hpdata]
      rw [dir_pre_of_ne_nil hne]
      simp only [GitTreeEntry.path, List.append_assoc, List.singleton_append,
        List.cons_append, List.nil_append]
    · obtain ⟨e, he, t, ht, hdata⟩ := ih2 hc.2.2 hbase pr hpr
      exact ⟨e, List.mem_cons_of_mem _ he, t, ht, hdata⟩
  | case4 base p tn s rest ih =>
    intro hwf hbase pr hpr
    have hc := well_formed_cons hwf
    rw [recurse_tree] at hpr
    obtain ⟨e, he, t, ht, hdata⟩ := ih hc.2.2 hbase pr hpr
    exact ⟨e, List.mem_cons_of_mem _ he, t, ht, hdata⟩

/-- For a well-formed entry list the full paths that `recurse_tree` emits
are pairwise distinct. -/
theorem recurse_tree_paths_nodup (base : String) (es : List GitTreeEntry) :
    well_formed es = true → base.data.getLast? ≠ some '/' →
    ((recurse_tree base es).map (fun pr => pr.2)).Nodup := by
  induction base, es using recurse_tree.induct with
  | case1 base =>
    intro _ _
    simp [recurse_tree]
  | case2 base p sha rest ih =>
    intro hwf hbase
    have hc := well_formed_cons hwf
    simp only [GitTreeEntry.path] at hc
    rw [recurse_tree, List.map_cons, List.nodup_cons]
    refine ⟨?_, ih hc.2.2 hbase⟩
    intro hmem
    obtain ⟨pr, hpr, hpath⟩ := List.mem_map.mp hmem
    obtain ⟨e, he, t, ht, hdata⟩ := recurse_tree_shape base rest hc.2.2 hbase pr hpr
    have heq : (dir_pre base.data ++ p.data) ++ [] = (dir_pre base.data ++ e.path.data) ++ t := by
      rw [List.append_nil, ← path_join_data base p (string_data_ne_nil hc.1.1) hc.1.2 hbase,
        ← hdata, hpath]
    rw [List.append_assoc, List.append_assoc] at heq
    have h2 := List.append_cancel_left heq
    have h3 : p.data = e.path.data :=
      seg_eq_of_append_eq p.data e.path.data [] t hc.1.2
        (well_formed_mem hc.2.2 he).2 (Or.inl rfl) ht h2
    apply hc.2.1
    rw [string_eq_of_data_eq h3]
    exact List.mem_map_of_mem _ he
  | case3 base p sha children rest ih1 ih2 =>
    intro hwf hbase
    have hc := well_formed_cons hwf
    simp only [GitTreeEntry.path] at hc
    have hch := well_formed_tree_children hwf
    have hpdata : p.data ≠ [] := string_data_ne_nil hc.1.1
    have hpslash : '/' ∉ p.data := hc.1.2
    have hbase' : (path_join base p).data.getLast? ≠ some '/' := by
      rw [path_join_getLast? base p hpdata hpslash hbase]
      intro hlast
      exact hpslash (mem_of_getLast?_eq hlast)
    rw [recurse_tree, List.map_append]
    refine List.Nodup.append (ih1 hch hbase') (ih2 hc.2.2 hbase) ?_
    intro x hx1 hx2
    obtain ⟨pr1, hpr1, hx1eq⟩ := List.mem_map.mp hx1
    obtain ⟨pr2, hpr2, hx2eq⟩ := List.mem_map.mp hx2
    obtain ⟨e1, _, t1, _, hdata1⟩ :=
      recurse_tree_shape (path_join base p) children hch hbase' pr1 hpr1
    obtain ⟨e2, he2, t2, ht2, hdata2⟩ := recurse_tree_shape base rest hc.2.2 hbase pr2 hpr2
    have heq : (dir_pre (path_join base p).data ++ e1.path.data) ++ t1 =
        (dir_pre base.data ++ e2.path.data) ++ t2 := by
      rw [← hdata1, ← hdata2, hx1eq, hx2eq]
    rw [path_join_data base p hpdata hpslash hbase,
      dir_pre_of_ne_nil (by simp [hpdata] : dir_pre base.data ++ p.data ≠ [])] at heq
    simp only [List.append_assoc, List.singleton_append] at heq
    have h2 := List.append_cancel_left heq
    have h3 : p.data = e2.path.data :=
      seg_eq_of_append_eq p.data e2.path.data ('/' :: (e1.path.data ++ t1)) t2 hpslash
        (well_formed_mem hc.2.2 he2).2 (Or.inr ⟨_, rfl⟩) ht2 h2
    apply hc.2.1
    rw [string_eq_of_data_eq h3]
    exact List.mem_map_of_mem _ he2
  | case4 base p tn s rest ih =>
    intro hwf hbase
    rw [recurse_tree]
    exact ih (well_formed_cons hwf).2.2 hbase

example : basename "a/b/c.txt" = "c.txt" := by decide

example : splitext_ext "a/b.c/d" = "" := by decide

example : splitext_ext "a/.bashrc" = "" := by decide

example : splitext_ext "a/b.tar.gz" = ".gz" := by decide

example : get_file_extension "a.tar.gz" = "gz" := by decide

theorem generate_documents_eq_filterMap (ctx : ReaderCtx) (l : List (GitTreeEntry × String))
    (h : ∀ pr ∈ l, (ctx.get_blob pr.1.sha).encoding = "base64") :
    generate_documents ctx l = .ok (l.filterMap (document_for ctx)) := by
  induction l with
  | nil => simp [generate_documents]
  | cons pr rest ih =>
    obtain ⟨blob_object, full_path⟩ := pr
    have henc := h _ (List.mem_cons_self _ _)
    have ih' := ih (fun q hq => h q (List.mem_cons_of_mem _ hq))
    rw [List.filterMap_cons]
    simp only [generate_documents, document_for]
    rw [if_neg (by simp [henc])]
    cases hdec : ctx.b64decode (ctx.get_blob blob_object.sha).content with
    | none => simpa [hdec] using ih'
    | some bytes =>
      cases hpar : (if ctx.useParser then
          parse_supported_file ctx full_path bytes (ctx.get_blob blob_object.sha).sha full_path
        else none) with
      | some doc => simp [hdec, hpar, ih']
      | none =>
        cases hutf : ctx.decode_utf8 bytes with
        | none => simp [hdec, hpar, hutf, ih']
        | some s => simp [hdec, hpar, hutf, ih']

theorem generate_documents_ok_base64 (ctx : ReaderCtx) :
    ∀ (l : List (GitTreeEntry × String)) (docs : List Document),
      generate_documents ctx l = .ok docs →
      ∀ pr ∈ l, (ctx.get_blob pr.1.sha).encoding = "base64" := by
  intro l
  induction l with
  | nil =>
    intro docs _ pr hpr
    cases hpr
  | cons q rest ih =>
    intro docs h pr hpr
    obtain ⟨bo, fp⟩ := q
    simp only [generate_documents] at h
    by_cases henc : (ctx.get_blob bo.sha).encoding = "base64"
    · rw [if_neg (by simp [henc])] at h
      rcases List.mem_cons.mp hpr with rfl | hpr'
      · exact henc
      · cases hdec : ctx.b64decode (ctx.get_blob bo.sha).content with
        | none =>
          simp only [hdec] at h
          exact ih docs h pr hpr'
        | some bytes =>
          simp only [hdec] at h
          cases hpar : (if ctx.useParser then
              parse_supported_file ctx fp bytes (ctx.get_blob bo.sha).sha fp
            else none) with
          | some doc =>
            simp only [hpar] at h
            cases hrec : generate_documents ctx rest with
            | error e => simp only [hrec] at h; exact Except.noConfusion h
            | ok ds => exact ih ds hrec pr hpr'
          | none =>
            simp only [hpar] at h
            cases hutf : ctx.decode_utf8 bytes with
            | none =>
              simp only [hutf] at h
              exact ih docs h pr hpr'
            | some s =>
              simp only [hutf] at h
              cases hrec : generate_documents ctx rest with
              | error e => simp only [hrec] at h; exact Except.noConfusion h
              | ok ds => exact ih ds hrec pr hpr'
    · rw [if_pos (by simp [henc])] at h
      exact Except.noConfusion h

theorem generate_documents_ne_invalidArgument (ctx : ReaderCtx)
    (l : List (GitTreeEntry × String)) (m : String) :
    generate_documents ctx l ≠ .error (.invalidArgument m) := by
  induction l with
  | nil => simp [generate_documents]
  | cons q rest ih =>
    obtain ⟨bo, fp⟩ := q
    intro h
    simp only [generate_documents] at h
    by_cases henc : (ctx.get_blob bo.sha).encoding = "base64"
    · rw [if_neg (by simp [henc])] at h
      cases hdec : ctx.b64decode (ctx.get_blob bo.sha).content with
      | none => simp only [hdec] at h; exact ih h
      | some bytes =>
        simp only [hdec] at h
        cases hpar : (if ctx.useParser then
            parse_supported_file ctx fp bytes (ctx.get_blob bo.sha).sha fp
          else none) with
        | some doc =>
          simp only [hpar] at h
          cases hrec : generate_documents ctx rest with
          | error e =>
            simp only [hrec] at h
            exact ih (by rw [hrec, Except.error.inj h])
          | ok ds => simp only [hrec] at h; exact Except.noConfusion h
        | none =>
          simp only [hpar] at h
          cases hutf : ctx.decode_utf8 bytes with
          | none => simp only [hutf] at h; exact ih h
          | some s =>
            simp only [hutf] at h
            cases hrec : generate_documents ctx rest with
            | error e =>
              simp only [hrec] at h
              exact ih (by rw [hrec, Except.error.inj h])
            | ok ds => simp only [hrec] at h; exact Except.noConfusion h
    · rw [if_pos (by simp [henc])] at h
      exact CrawlError.noConfusion (Except.error.inj h)

theorem recurse_tree_eq_flatten (base : String) (es : List GitTreeEntry) :
    recurse_tree base es = (es.map (expand_entry base)).flatten := by
  induction es with
  | nil => simp [recurse_tree]
  | cons e rest ih =>
    cases e with
    | blob p sha => simp [recurse_tree, expand_entry, ih]
    | tree p sha children => simp [recurse_tree, expand_entry, ih]
    | misc p tn sha => simp [recurse_tree, expand_entry, ih]

/-- Claim C2: for every well-formed tree with N blob entries in total at any
depth, the walk returns exactly N pairs, and the emitted full paths (the
root-relative paths built by joining the enclosing tree segments with the
entry's own path) are pairwise distinct. -/
theorem walk_complete_and_paths_unique (es : List GitTreeEntry)
    (hwf : well_formed es = true) :
    (recurse_tree "" es).length = count_blobs es ∧
    ((recurse_tree "" es).map (fun pr => pr.2)).Nodup :=
  ⟨recurse_tree_length "" es, recurse_tree_paths_nodup "" es hwf (by simp)⟩

/-- Witness for C2 on a concrete two-level tree with three blobs. -/
theorem walk_complete_and_paths_unique_witness :
    (recurse_tree "" [GitTreeEntry.blob "a.txt" "s1",
        GitTreeEntry.tree "b" "s2" [GitTreeEntry.blob "c.bin" "s3"],
        GitTreeEntry.blob "d.md" "s4"]).length =
      count_blobs [GitTreeEntry.blob "a.txt" "s1",
        GitTreeEntry.tree "b" "s2" [GitTreeEntry.blob "c.bin" "s3"],
        GitTreeEntry.blob "d.md" "s4"] ∧
    ((recurse_tree "" [GitTreeEntry.blob "a.txt" "s1",
        GitTreeEntry.tree "b" "s2" [GitTreeEntry.blob "c.bin" "s3"],
        GitTreeEntry.blob "d.md" "s4"]).map (fun pr => pr.2)).Nodup :=
  walk_complete_and_paths_unique _ (by simp only [well_formed]; decide)

/-- Claim C6: `load_data` fails with the invalid-argument `ValueError` iff
both or neither of `commit_sha`/`branch` are given, and that failure is
decided before any client call: with both or neither given, the result does
not depend on the reader at all. -/
theorem load_data_invalid_argument_iff (ctx ctx' : ReaderCtx)
    (commit_sha branch : Option String) :
    ((∃ m, load_data ctx commit_sha branch = .error (.invalidArgument m)) ↔
      commit_sha.isSome = branch.isSome) ∧
    (commit_sha.isSome = branch.isSome →
      load_data ctx commit_sha branch = load_data ctx' commit_sha branch) := by
  cases commit_sha with
  | none =>
    cases branch with
    | none =>
      exact ⟨⟨fun _ => rfl, fun _ =>
        ⟨"You must specify one of commit or branch.", by simp [load_data]⟩⟩, fun _ => rfl⟩
    | some b =>
      refine ⟨⟨?_, ?_⟩, ?_⟩
      · rintro ⟨m, hm⟩
        simp only [load_data, load_data_from_branch] at hm
        exact absurd hm (generate_documents_ne_invalidArgument _ _ m)
      · intro hss
        simp at hss
      · intro hss
        simp at hss
  | some c =>
    cases branch with
    | none =>
      refine ⟨⟨?_, ?_⟩, ?_⟩
      · rintro ⟨m, hm⟩
        simp only [load_data, load_data_from_commit] at hm
        exact absurd hm (generate_documents_ne_invalidArgument _ _ m)
      · intro hss
        simp at hss
      · intro hss
        simp at hss
    | some b =>
      exact ⟨⟨fun _ => rfl, fun _ =>
        ⟨"You can only specify one of commit or branch.", by simp [load_data]⟩⟩,
        fun _ => by simp [load_data]⟩

/-- Claim C7: construction fails with the missing-credential `ValueError`
iff neither the `github_token` argument nor the `GITHUB_TOKEN` environment
variable provides a token; with a token from either source it succeeds.
The resolution involves no client call. -/
theorem construction_requires_token (github_token env_github_token : Option String) :
    ((∃ m, resolve_github_token github_token env_github_token = .error (.invalidArgument m)) ↔
      github_token = none ∧ env_github_token = none) ∧
    (github_token ≠ none ∨ env_github_token ≠ none →
      ∃ t, resolve_github_token github_token env_github_token = .ok t) := by
  cases github_token with
  | some t => exact ⟨⟨fun ⟨m, hm⟩ => by simp [resolve_github_token] at hm,
      fun ⟨h1, _⟩ => by simp at h1⟩, fun _ => ⟨t, rfl⟩⟩
  | none =>
    cases env_github_token with
    | some t => exact ⟨⟨fun ⟨m, hm⟩ => by simp [resolve_github_token] at hm,
        fun ⟨_, h2⟩ => by simp at h2⟩, fun _ => ⟨t, rfl⟩⟩
    | none => exact ⟨⟨fun _ => ⟨rfl, rfl⟩, fun _ => ⟨_, rfl⟩⟩,
        fun h => by rcases h with h | h <;> simp at h⟩

/-- Claim C8: under the precondition that the client returns base64-encoded
blobs, the encoding assertion holds and the crawl succeeds; a blob with any
other encoding makes the crawl fail with the assertion error at that blob
instead of skipping the single file. -/
theorem blob_encoding_assert (ctx : ReaderCtx) (bo : GitTreeEntry) (fp : String)
    (rest l : List (GitTreeEntry × String)) :
    ((∀ pr ∈ l, (ctx.get_blob pr.1.sha).encoding = "base64") →
      ∃ docs, generate_documents ctx l = .ok docs) ∧
    ((ctx.get_blob bo.sha).encoding ≠ "base64" →
      generate_documents ctx ((bo, fp) :: rest) =
        .error (.unsupportedEncoding (ctx.get_blob bo.sha).encoding)) := by
  constructor
  · intro h
    exact ⟨_, generate_documents_eq_filterMap ctx l h⟩
  · intro h
    simp only [generate_documents]
    rw [if_pos h]

/-- Witness for C8: a base64 blob list crawls to a result, a blob claiming
encoding `"utf-8"` aborts the crawl with the assertion error. -/
theorem blob_encoding_assert_witness :
    (∃ docs, generate_documents c8_ctx [(.blob "g" "good", "g")] = .ok docs) ∧
    generate_documents c8_ctx [(.blob "w" "weird", "w")] =
      .error (.unsupportedEncoding "utf-8") :=
  ⟨(blob_encoding_assert c8_ctx (.blob "w" "weird") "w" [] [(.blob "g" "good", "g")]).1
      (by decide),
   (blob_encoding_assert c8_ctx (.blob "w" "weird") "w" [] [(.blob "g" "good", "g")]).2
      (by decide)⟩

/-- Claim C9: each walked blob contributes at most one Document, so a crawl
that returns documents returns at most as many as there are walked blobs. -/
theorem documents_at_most_one_per_blob (ctx : ReaderCtx) (l : List (GitTreeEntry × String))
    (docs : List Document) (h : generate_documents ctx l = .ok docs) :
    docs.length ≤ l.length := by
  have hb := generate_documents_ok_base64 ctx l docs h
  rw [generate_documents_eq_filterMap ctx l hb] at h
  rw [← Except.ok.inj h]
  exact List.length_filterMap_le _ _

/-- Witness for C9 on a one-blob crawl whose blob is skipped. -/
theorem documents_at_most_one_per_blob_witness :
    ([] : List Document).length ≤ [((GitTreeEntry.blob "f" "bad64" : GitTreeEntry), "f")].length :=
  documents_at_most_one_per_blob c5_ctx [(.blob "f" "bad64", "f")] []
    (by simp [generate_documents, c5_ctx, GitTreeEntry.sha])

/-- Claim C10: the crawl preserves order — the walk lists each tree's
entries in client order with subtree contents expanded in place, and the
returned documents are the per-blob results of the walk list in walk order
(a `filterMap`, which keeps relative order). -/
theorem crawl_preserves_order (ctx : ReaderCtx) (base : String) (es : List GitTreeEntry)
    (l : List (GitTreeEntry × String))
    (h : ∀ pr ∈ l, (ctx.get_blob pr.1.sha).encoding = "base64") :
    recurse_tree base es = (es.map (expand_entry base)).flatten ∧
    generate_documents ctx l = .ok (l.filterMap (document_for ctx)) :=
  ⟨recurse_tree_eq_flatten base es, generate_documents_eq_filterMap ctx l h⟩

/-- Witness for C10 on a concrete subtree and a concrete one-blob crawl. -/
theorem crawl_preserves_order_witness :
    recurse_tree "" [GitTreeEntry.tree "b" "s2" [GitTreeEntry.blob "c" "s3"]] =
      ([GitTreeEntry.tree "b" "s2" [GitTreeEntry.blob "c" "s3"]].map (expand_entry "")).flatten ∧
    generate_documents c8_ctx [(.blob "g" "good", "g")] =
      .ok ([((GitTreeEntry.blob "g" "good" : GitTreeEntry), "g")].filterMap (document_for c8_ctx)) :=
  crawl_preserves_order c8_ctx "" [GitTreeEntry.tree "b" "s2" [GitTreeEntry.blob "c" "s3"]]
    [(.blob "g" "good", "g")] (by decide)

/-- Claim C1 as stated is false on the code: `_parse_supported_file`
returns `None` when the extractor raises, and `_generate_documents` cannot
distinguish that from "no extractor registered", so it falls through to the
plain-text fallback.  Here the `"txt"` extension has a registered extractor
that raises, the bytes are valid UTF-8, and the crawl still produces the
fallback Document for the file. -/
theorem extractor_failure_no_fallback_counterexample :
    c1_ctx.useParser = true ∧
    c1_ctx.file_extractor (get_file_extension "a.txt") = some failing_extractor ∧
    failing_extractor.parse_file [104, 105] = none ∧
    c1_ctx.b64decode (c1_ctx.get_blob "s1").content = some [104, 105] ∧
    generate_documents c1_ctx [(.blob "a.txt" "s1", "a.txt")] =
      .ok [fallback_document "a.txt" "hi"] :=
  ⟨rfl, rfl, rfl, rfl, by
    simp [generate_documents, c1_ctx, parse_supported_file, get_file_extension,
      ext_after_last_dot, failing_extractor, GitTreeEntry.sha]⟩

/-- Claim C1 (amended): when a registered extractor raises during parsing,
no extractor Document is produced, but the code then falls back to
plain-text UTF-8 decoding of the raw bytes: the file yields the fallback
Document if they decode, is skipped if they do not, and the crawl continues
with the remaining files either way. -/
theorem extractor_failure_falls_back (ctx : ReaderCtx) (bo : GitTreeEntry) (fp : String)
    (rest : List (GitTreeEntry × String)) (bytes : Bytes) (ex : FileExtractor)
    (henc : (ctx.get_blob bo.sha).encoding = "base64")
    (hdec : ctx.b64decode (ctx.get_blob bo.sha).content = some bytes)
    (huse : ctx.useParser = true)
    (hreg : ctx.file_extractor (get_file_extension fp) = some ex)
    (hfail : ex.parse_file bytes = none) :
    generate_documents ctx ((bo, fp) :: rest) =
      match ctx.decode_utf8 bytes with
      | none => generate_documents ctx rest
      | some s =>
        match generate_documents ctx rest with
        | .error e => .error e
        | .ok ds => .ok (fallback_document fp s :: ds) := by
  have hp : parse_supported_file ctx fp bytes (ctx.get_blob bo.sha).sha fp = none := by
    simp [parse_supported_file, hreg, hfail]
  simp only [generate_documents]
  rw [if_neg (by simp [henc])]
  simp only [hdec, huse]
  rw [if_pos trivial]
  simp only [hp]

/-- Witness for the amended C1: the failing `"txt"` extractor, bytes that
UTF-8-decode to `"hi"`. -/
theorem extractor_failure_falls_back_witness :
    generate_documents c1_ctx [(.blob "a.txt" "s1", "a.txt")] =
      match c1_ctx.decode_utf8 [104, 105] with
      | none => generate_documents c1_ctx []
      | some s =>
        match generate_documents c1_ctx [] with
        | .error e => .error e
        | .ok ds => .ok (fallback_document "a.txt" s :: ds) :=
  extractor_failure_falls_back c1_ctx (.blob "a.txt" "s1") "a.txt" [] [104, 105]
    failing_extractor rfl rfl rfl rfl rfl

/-- Claim C3: a blob with a registered extension whose extractor succeeds
yields exactly one Document for that blob: its doc_id is the fetched blob's
content hash, its text is the extractor's segments joined by a blank line,
and its metadata maps both file_path and file_name to the full path. -/
theorem extractor_success_document (ctx : ReaderCtx) (bo : GitTreeEntry) (fp : String)
    (rest : List (GitTreeEntry × String)) (bytes : Bytes) (ex : FileExtractor)
    (segments : List String)
    (henc : (ctx.get_blob bo.sha).encoding = "base64")
    (hdec : ctx.b64decode (ctx.get_blob bo.sha).content = some bytes)
    (huse : ctx.useParser = true)
    (hreg : ctx.file_extractor (get_file_extension fp) = some ex)
    (hok : ex.parse_file bytes = some segments) :
    generate_documents ctx ((bo, fp) :: rest) =
      match generate_documents ctx rest with
      | .error e => .error e
      | .ok ds =>
        .ok ({ text := String.intercalate "\n\n" segments
             , doc_id := some (ctx.get_blob bo.sha).sha
             , extra_info := [("file_path", fp), ("file_name", fp)] } :: ds) := by
  simp only [generate_documents]
  rw [if_neg (by simp [henc])]
  simp only [hdec, huse]
  rw [if_pos trivial]
  simp only [parse_supported_file, hreg, hok]

/-- Witness for C3: the `"md"` extension's extractor returns two segments,
which are joined by a blank line into the single Document. -/
theorem extractor_success_document_witness :
    generate_documents c3_ctx [(.blob "n.md" "sha9", "n.md")] =
      match generate_documents c3_ctx [] with
      | .error e => .error e
      | .ok ds =>
        .ok ({ text := String.intercalate "\n\n" ["seg one", "seg two"]
             , doc_id := some (c3_ctx.get_blob (GitTreeEntry.blob "n.md" "sha9").sha).sha
             , extra_info := [("file_path", "n.md"), ("file_name", "n.md")] } :: ds) :=
  extractor_success_document c3_ctx (.blob "n.md" "sha9") "n.md" [] [35]
    two_segment_extractor ["seg one", "seg two"] rfl rfl rfl rfl rfl

/-- Claim C4: a blob whose extension has no registered extractor and whose
content base64-decodes to bytes that UTF-8-decode to the text C yields the
fallback Document with text exactly C and metadata full_path, file_name
(the basename) and file_extension. -/
theorem no_extractor_text_roundtrip (ctx : ReaderCtx) (bo : GitTreeEntry) (fp : String)
    (rest : List (GitTreeEntry × String)) (bytes : Bytes) (c : String)
    (henc : (ctx.get_blob bo.sha).encoding = "base64")
    (hdec : ctx.b64decode (ctx.get_blob bo.sha).content = some bytes)
    (hreg : ctx.file_extractor (get_file_extension fp) = none)
    (hutf : ctx.decode_utf8 bytes = some c) :
    generate_documents ctx ((bo, fp) :: rest) =
      match generate_documents ctx rest with
      | .error e => .error e
      | .ok ds =>
        .ok ({ text := c
             , doc_id := none
             , extra_info := [("full_path", fp), ("file_name", basename fp),
                              ("file_extension", splitext_ext fp)] } :: ds) := by
  have hp : parse_supported_file ctx fp bytes (ctx.get_blob bo.sha).sha fp = none := by
    simp [parse_supported_file, hreg]
  simp only [generate_documents]
  rw [if_neg (by simp [henc])]
  simp only [hdec]
  cases huse : ctx.useParser with
  | true =>
    rw [if_pos rfl]
    simp only [hp, hutf, fallback_document]
  | false =>
    rw [if_neg (by simp)]
    simp only [hutf, fallback_document]

/-- Witness for C4: content decoding to `"hello"` under path
`"docs/readme.txt"`, no extractor registered. -/
theorem no_extractor_text_roundtrip_witness :
    generate_documents c4_ctx [(.blob "readme.txt" "sha7", "docs/readme.txt")] =
      match generate_documents c4_ctx [] with
      | .error e => .error e
      | .ok ds =>
        .ok ({ text := "hello"
             , doc_id := none
             , extra_info := [("full_path", "docs/readme.txt"),
                              ("file_name", basename "docs/readme.txt"),
                              ("file_extension", splitext_ext "docs/readme.txt")] } :: ds) :=
  no_extractor_text_roundtrip c4_ctx (.blob "readme.txt" "sha7") "docs/readme.txt" []
    [104, 101, 108, 108, 111] "hello" rfl rfl rfl rfl

/-- Claim C5: a blob whose content is malformed base64, or whose decoded
bytes are not valid UTF-8 when the plain-text fallback is taken, is skipped:
the crawl of the remaining blobs is exactly the crawl without this blob, so
no error escapes on its account. -/
theorem decode_failure_skips_blob (ctx : ReaderCtx) (bo : GitTreeEntry) (fp : String)
    (rest : List (GitTreeEntry × String))
    (henc : (ctx.get_blob bo.sha).encoding = "base64")
    (h : ctx.b64decode (ctx.get_blob bo.sha).content = none ∨
      ∃ bytes, ctx.b64decode (ctx.get_blob bo.sha).content = some bytes ∧
        (if ctx.useParser then
            parse_supported_file ctx fp bytes (ctx.get_blob bo.sha).sha fp
          else none) = none ∧
        ctx.decode_utf8 bytes = none) :
    generate_documents ctx ((bo, fp) :: rest) = generate_documents ctx rest := by
  simp only [generate_documents]
  rw [if_neg (by simp [henc])]
  rcases h with h | ⟨bytes, h1, h2, h3⟩
  · simp only [h]
  · simp only [h1, h2, h3]

/-- Witness for C5: one blob with malformed base64, one whose bytes are not
UTF-8; each is skipped. -/
theorem decode_failure_skips_blob_witness :
    generate_documents c5_ctx [(.blob "f" "bad64", "f")] = generate_documents c5_ctx [] ∧
    generate_documents c5_ctx [(.blob "g" "badutf", "g")] = generate_documents c5_ctx [] :=
  ⟨decode_failure_skips_blob c5_ctx (.blob "f" "bad64") "f" [] rfl (Or.inl rfl),
   decode_failure_skips_blob c5_ctx (.blob "g" "badutf") "g" [] rfl
     (Or.inr ⟨[255], rfl, rfl, rfl⟩)⟩

/-- Witness for C6: with neither argument given, `load_data` fails with the
invalid-argument error identically for two different readers. -/
theorem load_data_invalid_argument_iff_witness :
    (∃ m, load_data c1_ctx none none = .error (.invalidArgument m)) ∧
    load_data c1_ctx none none = load_data c8_ctx none none :=
  ⟨(load_data_invalid_argument_iff c1_ctx c8_ctx none none).1.mpr rfl,
   (load_data_invalid_argument_iff c1_ctx c8_ctx none none).2 rfl⟩

/-- Witness for C7: no token from either source fails, a parameter token
succeeds. -/
theorem construction_requires_token_witness :
    (∃ m, resolve_github_token none none = .error (.invalidArgument m)) ∧
    (∃ t, resolve_github_token (some "tok") none = .ok t) :=
  ⟨(construction_requires_token none none).1.mpr ⟨rfl, rfl⟩,
   (construction_requires_token (some "tok") none).2 (Or.inl (by simp))⟩
